import Mathlib

/-!
Verification of the core of the bfx-cpp-api repository (a Bitfinex REST API
C++ client) against its natural-language specification.

The development shallowly embeds the two engineered pieces of the source:

* the authenticated-request signing pipeline of
  `src/include/BitfinexAPI.hpp` (`getBase64`, `getHmacSha384`,
  `DoPOSTrequest`, `getTonce`), and
* the schema-validated streaming JSON decoder of
  `src/include/bfx-api-cpp/jsonutils.hpp` (`jsonStrToUsetHandler`,
  `jsonStrToUset`).

Bytes are modelled as `Nat` (with explicit bounds where the C++ type system
gives them); C++ `std::string` values are modelled as `List Char` when viewed
as text and `List Nat` when viewed as byte buffers.
-/

/-! ## Base64 (CryptoPP `Base64Encoder`, standard alphabet, line breaks off)

`getBase64` feeds the payload through
`StringSource(buffer, len, true, new Base64Encoder(new StringSink(encoded), false))`;
the second `Base64Encoder` argument disables line breaks, so the output is the
plain RFC 4648 encoding with `=` padding and no inserted newlines. -/

/-- The standard base64 alphabet used by CryptoPP `Base64Encoder`. -/
def b64alphabet : List Char :=
  "ABCDEFGHIJKLMNOPQRSTUVWXYZabcdefghijklmnopqrstuvwxyz0123456789+/".data

/-- Character for one 6-bit group (index into the base64 alphabet). -/
def b64char (n : Nat) : Char := b64alphabet.getD n 'A'

/-- RFC 4648 base64 encoding of a byte list, three input bytes per four
output characters, `=` padding, no line breaks. -/
def base64Encode : List Nat → List Char
  | [] => []
  | [a] => [b64char (a / 4), b64char (a % 4 * 16), '=', '=']
  | [a, b] => [b64char (a / 4), b64char (a % 4 * 16 + b / 16), b64char (b % 16 * 4), '=']
  | a :: b :: c :: rest =>
      b64char (a / 4) :: b64char (a % 4 * 16 + b / 16) ::
      b64char (b % 16 * 4 + c / 64) :: b64char (c % 64) :: base64Encode rest

/-- Value of one base64 character (inverse alphabet lookup). -/
def b64val (c : Char) : Option Nat := b64alphabet.findIdx? (fun x => x = c)

/-- Decode a final base64 group carrying one byte (`xx==`). -/
def b64decode1 (c1 c2 : Char) : Option (List Nat) :=
  match b64val c1, b64val c2 with
  | some v1, some v2 =>
      if v2 % 16 = 0 then some [v1 * 4 + v2 / 16] else none
  | _, _ => none

/-- Decode a final base64 group carrying two bytes (`xxx=`). -/
def b64decode2 (c1 c2 c3 : Char) : Option (List Nat) :=
  match b64val c1, b64val c2, b64val c3 with
  | some v1, some v2, some v3 =>
      if v3 % 4 = 0 then some [v1 * 4 + v2 / 16, v2 % 16 * 16 + v3 / 4] else none
  | _, _, _ => none

/-- Decode a full base64 group carrying three bytes. -/
def b64decode3 (c1 c2 c3 c4 : Char) : Option (List Nat) :=
  match b64val c1, b64val c2, b64val c3, b64val c4 with
  | some v1, some v2, some v3, some v4 =>
      some [v1 * 4 + v2 / 16, v2 % 16 * 16 + v3 / 4, v3 % 4 * 64 + v4]
  | _, _, _, _ => none

/-- Base64 decoding: mathematical inverse of `base64Encode` (groups of four
characters, padding allowed only in the final group). -/
def base64Decode : List Char → Option (List Nat)
  | [] => some []
  | [c1, c2, c3, c4] =>
      if c3 = '=' then (if c4 = '=' then b64decode1 c1 c2 else none)
      else if c4 = '=' then b64decode2 c1 c2 c3
      else b64decode3 c1 c2 c3 c4
  | c1 :: c2 :: c3 :: c4 :: c5 :: rest =>
      match b64decode3 c1 c2 c3 c4, base64Decode (c5 :: rest) with
      | some bs, some tl => some (bs ++ tl)
      | _, _ => none
  | _ => none

/-! ## `getBase64` (BitfinexAPI.hpp lines 1054-1073)

The C++ routine copies the payload into a stack array `byte buffer[1024]`
with a plain loop (`for i < content.length(), buffer[i] = content[i]`) and
then encodes `content.length()` bytes out of that buffer.  There is no size
check of any kind: for payloads of at most 1024 bytes the copy is in bounds
and the routine returns `0` with the encoding of the payload; for longer
payloads the loop writes past the end of the fixed buffer, which is undefined
behaviour in C++.  The outcome type below makes both possibilities explicit,
and also carries a `payloadTooLarge` constructor for the failure condition
demanded by the specification, so that theorems can state whether the code
ever produces it (it does not). -/

/-- Outcome of the `getBase64` routine.  `ok ret encoded` is a normal return
(the C++ function always returns the int `0` and writes `encoded` through its
out-parameter); `payloadTooLarge` is the failure condition required by the
specification; `outOfBoundsWrite` marks the undefined behaviour reached when
the copy loop runs past the fixed 1024-byte buffer. -/
inductive EncodeOutcome
  | ok (ret : Int) (encoded : List Char)
  | payloadTooLarge
  | outOfBoundsWrite
deriving DecidableEq, Repr

/-- Shallow embedding of `BitfinexAPI::getBase64`.  The 1024 bound is the
size of the local `byte buffer[1024]`; the copy loop performs no check, so
anything longer reaches an out-of-bounds write instead of an error return. -/
def getBase64 (content : List Nat) : EncodeOutcome :=
  if content.length ≤ 1024 then .ok 0 (base64Encode content) else .outOfBoundsWrite

/-! ### Base64 lemmas -/

theorem b64val_b64char (n : Nat) (h : n < 64) : b64val (b64char n) = some n := by
  have hall : ∀ m, m < 64 → b64val (b64char m) = some m := by decide
  exact hall n h

theorem b64char_ne_pad (n : Nat) (h : n < 64) : b64char n ≠ '=' := by
  have hall : ∀ m, m < 64 → b64char m ≠ '=' := by decide
  exact hall n h

theorem base64Encode_cons_shape (x : Nat) (xs : List Nat) :
    ∃ d ds, base64Encode (x :: xs) = d :: ds := by
  match xs with
  | [] => exact ⟨_, _, rfl⟩
  | [y] => exact ⟨_, _, rfl⟩
  | y :: z :: t => exact ⟨_, _, rfl⟩

theorem base64_roundtrip (l : List Nat) (hl : ∀ b ∈ l, b < 256) :
    base64Decode (base64Encode l) = some l := by
  match l with
  | [] => rfl
  | [a] =>
      have ha : a < 256 := hl a (by simp)
      have hm : a % 4 * 16 % 16 = 0 := by omega
      simp only [base64Encode, base64Decode, if_pos rfl, b64decode1,
        b64val_b64char _ (show a / 4 < 64 by omega),
        b64val_b64char _ (show a % 4 * 16 < 64 by omega), hm, if_true,
        Option.some.injEq, List.cons.injEq, and_true]
      omega
  | [a, b] =>
      have ha : a < 256 := hl a (by simp)
      have hb : b < 256 := hl b (by simp)
      have hne : b64char (b % 16 * 4) ≠ '=' := b64char_ne_pad _ (by omega)
      have hm : b % 16 * 4 % 4 = 0 := by omega
      simp only [base64Encode, base64Decode, if_neg hne, if_pos rfl, b64decode2,
        b64val_b64char _ (show a / 4 < 64 by omega),
        b64val_b64char _ (show a % 4 * 16 + b / 16 < 64 by omega),
        b64val_b64char _ (show b % 16 * 4 < 64 by omega), hm, if_true,
        Option.some.injEq, List.cons.injEq, and_true]
      constructor <;> omega
  | [a, b, c] =>
      have ha : a < 256 := hl a (by simp)
      have hb : b < 256 := hl b (by simp)
      have hc : c < 256 := hl c (by simp)
      have hne1 : b64char (b % 16 * 4 + c / 64) ≠ '=' := b64char_ne_pad _ (by omega)
      have hne2 : b64char (c % 64) ≠ '=' := b64char_ne_pad _ (by omega)
      simp only [base64Encode, base64Decode, if_neg hne1, if_neg hne2, b64decode3,
        b64val_b64char _ (show a / 4 < 64 by omega),
        b64val_b64char _ (show a % 4 * 16 + b / 16 < 64 by omega),
        b64val_b64char _ (show b % 16 * 4 + c / 64 < 64 by omega),
        b64val_b64char _ (show c % 64 < 64 by omega),
        Option.some.injEq, List.cons.injEq, and_true]
      refine ⟨by omega, by omega, by omega⟩
  | a :: b :: c :: r :: rs =>
      have ha : a < 256 := hl a (by simp)
      have hb : b < 256 := hl b (by simp)
      have hc : c < 256 := hl c (by simp)
      have hrec : base64Decode (base64Encode (r :: rs)) = some (r :: rs) :=
        base64_roundtrip (r :: rs) (fun x hx => hl x (by simp [hx]))
      obtain ⟨d, ds, hshape⟩ := base64Encode_cons_shape r rs
      rw [hshape] at hrec
      have henc : base64Encode (a :: b :: c :: r :: rs) =
          b64char (a / 4) :: b64char (a % 4 * 16 + b / 16) ::
          b64char (b % 16 * 4 + c / 64) :: b64char (c % 64) :: d :: ds := by
        rw [show base64Encode (a :: b :: c :: r :: rs) =
          b64char (a / 4) :: b64char (a % 4 * 16 + b / 16) ::
          b64char (b % 16 * 4 + c / 64) :: b64char (c % 64) ::
          base64Encode (r :: rs) from rfl, hshape]
      rw [henc]
      simp only [base64Decode, hrec, b64decode3,
        b64val_b64char _ (show a / 4 < 64 by omega),
        b64val_b64char _ (show a % 4 * 16 + b / 16 < 64 by omega),
        b64val_b64char _ (show b % 16 * 4 + c / 64 < 64 by omega),
        b64val_b64char _ (show c % 64 < 64 by omega)]
      simp only [Option.some.injEq]
      have h1 : a / 4 * 4 + (a % 4 * 16 + b / 16) / 16 = a := by omega
      have h2 : (a % 4 * 16 + b / 16) % 16 * 16 + (b % 16 * 4 + c / 64) / 4 = b := by omega
      have h3 : (b % 16 * 4 + c / 64) % 4 * 64 + c % 64 = c := by omega
      rw [h1, h2, h3]
      rfl

theorem b64char_mem (n : Nat) : b64char n ∈ b64alphabet := by
  by_cases h : n < b64alphabet.length
  · rw [b64char, b64alphabet.getD_eq_getElem _ h]
    exact b64alphabet.getElem_mem h
  · rw [b64char, List.getD_eq_default _ _ (by omega)]
    decide

theorem base64Encode_chars (l : List Nat) :
    ∀ c ∈ base64Encode l, c ∈ b64alphabet ∨ c = '=' := by
  match l with
  | [] => intro c hc; simp [base64Encode] at hc
  | [a] =>
      intro c hc
      simp only [base64Encode, List.mem_cons, List.not_mem_nil, or_false] at hc
      rcases hc with h | h | h | h
      all_goals first
        | (left; rw [h]; exact b64char_mem _)
        | (right; exact h)
  | [a, b] =>
      intro c hc
      simp only [base64Encode, List.mem_cons, List.not_mem_nil, or_false] at hc
      rcases hc with h | h | h | h
      all_goals first
        | (left; rw [h]; exact b64char_mem _)
        | (right; exact h)
  | a :: b :: cc :: rest =>
      intro c hc
      simp only [base64Encode, List.mem_cons] at hc
      rcases hc with h | h | h | h | h
      · left; rw [h]; exact b64char_mem _
      · left; rw [h]; exact b64char_mem _
      · left; rw [h]; exact b64char_mem _
      · left; rw [h]; exact b64char_mem _
      · exact base64Encode_chars rest c h

/-! ### Claims about the payload encoder -/

/-- C1: the specification demands that a payload at exactly the maximum
supported size (the 1024-byte local buffer) encodes successfully and that one
byte more fails with a PayloadTooLarge condition.  The code performs no size
check at all: it never produces a PayloadTooLarge condition; a 1024-byte
payload is encoded and returned with status 0, and a 1025-byte payload runs
the copy loop past the end of the fixed buffer (undefined behaviour) while
still never signalling PayloadTooLarge.  This theorem evaluates the embedded
code at both sides of the boundary and shows the error condition is
unreachable, witnessing the code bug. -/
theorem C1_getBase64_no_payloadTooLarge :
    (∀ content : List Nat, getBase64 content ≠ EncodeOutcome.payloadTooLarge)
    ∧ getBase64 (List.replicate 1024 0) =
        EncodeOutcome.ok 0 (base64Encode (List.replicate 1024 0))
    ∧ getBase64 (List.replicate 1025 0) = EncodeOutcome.outOfBoundsWrite := by
  refine ⟨?_, ?_, ?_⟩
  · intro content
    unfold getBase64
    split <;> simp
  · unfold getBase64
    rw [if_pos (by rw [List.length_replicate])]
  · unfold getBase64
    rw [if_neg (by rw [List.length_replicate]; omega)]

/-- C2: for every payload byte string within the supported size bound of the
encoder (at most 1024 bytes, where `getBase64` returns normally), decoding
the base64 output yields exactly the original payload. -/
theorem C2_base64_roundtrip (content : List Nat) (hbytes : ∀ b ∈ content, b < 256)
    (r : Int) (enc : List Char) (henc : getBase64 content = EncodeOutcome.ok r enc) :
    base64Decode enc = some content := by
  unfold getBase64 at henc
  by_cases h : content.length ≤ 1024
  · rw [if_pos h] at henc
    simp only [EncodeOutcome.ok.injEq] at henc
    rw [← henc.2]
    exact base64_roundtrip content hbytes
  · rw [if_neg h] at henc
    exact absurd henc (by simp)

/-- Witness for C2 at the concrete payload [104, 105] (the bytes of "hi"). -/
theorem C2_base64_roundtrip_witness :
    (∀ b ∈ [104, 105], b < 256)
    ∧ base64Decode (base64Encode [104, 105]) = some [104, 105] :=
  ⟨by decide, C2_base64_roundtrip [104, 105] (by decide) 0 (base64Encode [104, 105]) rfl⟩

/-- C10: the encoder is constructed with line breaking disabled (the `false`
argument of `Base64Encoder`), so every successful encoding contains no
newline and no carriage-return character: the payload header value is always
a single line. -/
theorem C10_base64_no_linebreaks (content : List Nat) (r : Int) (enc : List Char)
    (henc : getBase64 content = EncodeOutcome.ok r enc) :
    '\n' ∉ enc ∧ '\r' ∉ enc := by
  unfold getBase64 at henc
  by_cases h : content.length ≤ 1024
  · rw [if_pos h] at henc
    simp only [EncodeOutcome.ok.injEq] at henc
    rw [← henc.2]
    constructor
    · intro hmem
      rcases base64Encode_chars content _ hmem with hin | hpad
      · exact absurd hin (by decide)
      · exact absurd hpad (by decide)
    · intro hmem
      rcases base64Encode_chars content _ hmem with hin | hpad
      · exact absurd hin (by decide)
      · exact absurd hpad (by decide)
  · rw [if_neg h] at henc
    exact absurd henc (by simp)

/-- Witness for C10 at the concrete payload [104]. -/
theorem C10_base64_no_linebreaks_witness :
    '\n' ∉ base64Encode [104] ∧ '\r' ∉ base64Encode [104] :=
  C10_base64_no_linebreaks [104] 0 (base64Encode [104]) rfl

/-! ## `getHmacSha384` (BitfinexAPI.hpp lines 1075-1099)

The C++ routine builds `HMAC<SHA384>` from the raw secret key bytes
(`SecByteBlock byteKey(key.data(), key.size())` passed directly to the HMAC
constructor, with no hashing of the key beforehand), runs the content through
it, hex-encodes the 48-byte tag (CryptoPP `HexEncoder` emits uppercase) and
then lowercases every character with `std::transform(..., ::tolower)`.
SHA-384 and the HMAC construction are the standard FIPS 180-4 / RFC 2104
algorithms implemented by CryptoPP; they are embedded below over byte lists
(64-bit words are `Nat` reduced modulo `2 ^ 64`).  The embedding was checked
against the FIPS 180-4 SHA-384 examples and the RFC 4231 HMAC-SHA-384 test
vectors. -/

/-- 64-bit truncation. -/
def w64 (n : Nat) : Nat := n % 18446744073709551616

/-- 64-bit rotate right by `n`. -/
def rotr64 (n x : Nat) : Nat := w64 (x / 2 ^ n + x % 2 ^ n * 2 ^ (64 - n))

/-- SHA-512 choice function (bitwise, with 64-bit complement). -/
def shaCh (x y z : Nat) : Nat := (x &&& y) ^^^ ((x ^^^ 18446744073709551615) &&& z)

/-- SHA-512 majority function. -/
def shaMaj (x y z : Nat) : Nat := (x &&& y) ^^^ (x &&& z) ^^^ (y &&& z)

/-- SHA-512 big sigma 0. -/
def bSig0 (x : Nat) : Nat := rotr64 28 x ^^^ rotr64 34 x ^^^ rotr64 39 x

/-- SHA-512 big sigma 1. -/
def bSig1 (x : Nat) : Nat := rotr64 14 x ^^^ rotr64 18 x ^^^ rotr64 41 x

/-- SHA-512 small sigma 0. -/
def sSig0 (x : Nat) : Nat := rotr64 1 x ^^^ rotr64 8 x ^^^ x / 2 ^ 7

/-- SHA-512 small sigma 1. -/
def sSig1 (x : Nat) : Nat := rotr64 19 x ^^^ rotr64 61 x ^^^ x / 2 ^ 6

/-- Value of one hexadecimal digit (both cases); also used by the JSON
string lexer below (rapidjson `ParseHex4` accepts both cases too). -/
def hexVal (c : Char) : Option Nat :=
  if 48 ≤ c.toNat ∧ c.toNat ≤ 57 then some (c.toNat - 48)
  else if 65 ≤ c.toNat ∧ c.toNat ≤ 70 then some (c.toNat - 55)
  else if 97 ≤ c.toNat ∧ c.toNat ≤ 102 then some (c.toNat - 87)
  else none

/-- Numeric value of a string of hex digits. -/
def hexToNat (s : String) : Nat :=
  s.data.foldl (fun acc c => acc * 16 + ((hexVal c).getD 0)) 0

/-- The eighty SHA-512 round constants (FIPS 180-4 section 4.2.3), written
as hex words. -/
def sha512KHex : String :=
  "428a2f98d728ae22 7137449123ef65cd b5c0fbcfec4d3b2f e9b5dba58189dbbc "
    ++ "3956c25bf348b538 59f111f1b605d019 923f82a4af194f9b ab1c5ed5da6d8118 "
    ++ "d807aa98a3030242 12835b0145706fbe 243185be4ee4b28c 550c7dc3d5ffb4e2 "
    ++ "72be5d74f27b896f 80deb1fe3b1696b1 9bdc06a725c71235 c19bf174cf692694 "
    ++ "e49b69c19ef14ad2 efbe4786384f25e3 0fc19dc68b8cd5b5 240ca1cc77ac9c65 "
    ++ "2de92c6f592b0275 4a7484aa6ea6e483 5cb0a9dcbd41fbd4 76f988da831153b5 "
    ++ "983e5152ee66dfab a831c66d2db43210 b00327c898fb213f bf597fc7beef0ee4 "
    ++ "c6e00bf33da88fc2 d5a79147930aa725 06ca6351e003826f 142929670a0e6e70 "
    ++ "27b70a8546d22ffc 2e1b21385c26c926 4d2c6dfc5ac42aed 53380d139d95b3df "
    ++ "650a73548baf63de 766a0abb3c77b2a8 81c2c92e47edaee6 92722c851482353b "
    ++ "a2bfe8a14cf10364 a81a664bbc423001 c24b8b70d0f89791 c76c51a30654be30 "
    ++ "d192e819d6ef5218 d69906245565a910 f40e35855771202a 106aa07032bbd1b8 "
    ++ "19a4c116b8d2d0c8 1e376c085141ab53 2748774cdf8eeb99 34b0bcb5e19b48a8 "
    ++ "391c0cb3c5c95a63 4ed8aa4ae3418acb 5b9cca4f7763e373 682e6ff3d6b2b8a3 "
    ++ "748f82ee5defb2fc 78a5636f43172f60 84c87814a1f0ab72 8cc702081a6439ec "
    ++ "90befffa23631e28 a4506cebde82bde9 bef9a3f7b2c67915 c67178f2e372532b "
    ++ "ca273eceea26619c d186b8c721c0c207 eada7dd6cde0eb1e f57d4f7fee6ed178 "
    ++ "06f067aa72176fba 0a637dc5a2c898a6 113f9804bef90dae 1b710b35131c471b "
    ++ "28db77f523047d84 32caab7b40c72493 3c9ebe0a15c9bebc 431d67c49c100d4c "
    ++ "4cc5d4becb3e42b6 597f299cfc657e2a 5fcb6fab3ad6faec 6c44198c4a475817"

/-- The eighty SHA-512 round constants. -/
def sha512K : List Nat := (sha512KHex.splitOn " ").map hexToNat

/-- The eight 64-bit working variables of the SHA-512 family. -/
structure Sha512State where
  sa : Nat
  sb : Nat
  sc : Nat
  sd : Nat
  se : Nat
  sf : Nat
  sg : Nat
  sh : Nat

/-- SHA-384 initial hash value (FIPS 180-4 section 5.3.4). -/
def sha384IV : Sha512State :=
  ⟨0xcbbb9d5dc1059ed8, 0x629a292a367cd507, 0x9159015a3070dd17, 0x152fecd8f70e5939,
   0x67332667ffc00b31, 0x8eb44a8768581511, 0xdb0c2e0d64f98fa7, 0x47b5481dbefa4fa4⟩

/-- One SHA-512 round, with `kw` the sum of round constant and schedule word. -/
def shaRound (st : Sha512State) (kw : Nat) : Sha512State :=
  let t1 := w64 (st.sh + bSig1 st.se + shaCh st.se st.sf st.sg + kw)
  let t2 := w64 (bSig0 st.sa + shaMaj st.sa st.sb st.sc)
  ⟨w64 (t1 + t2), st.sa, st.sb, st.sc, w64 (st.sd + t1), st.se, st.sf, st.sg⟩

/-- Extend the sixteen block words by `n` message-schedule words. -/
def shaSchedule (ws : List Nat) : Nat → List Nat
  | 0 => ws
  | n + 1 =>
      let w := shaSchedule ws n
      w ++ [w64 (sSig1 (w.getD (w.length - 2) 0) + w.getD (w.length - 7) 0 +
             sSig0 (w.getD (w.length - 15) 0) + w.getD (w.length - 16) 0)]

/-- Big-endian word from a list of bytes. -/
def bytesToWord (bs : List Nat) : Nat := bs.foldl (fun acc b => acc * 256 + b % 256) 0

/-- The sixteen 64-bit words of one 128-byte block. -/
def blockWords (block : List Nat) : List Nat :=
  (List.range 16).map (fun i => bytesToWord ((block.drop (8 * i)).take 8))

/-- SHA-512 compression of one block into the running state. -/
def processBlock (st : Sha512State) (block : List Nat) : Sha512State :=
  let ws := shaSchedule (blockWords block) 64
  let kws := List.zipWith (fun k w => w64 (k + w)) sha512K ws
  let fin := kws.foldl shaRound st
  ⟨w64 (st.sa + fin.sa), w64 (st.sb + fin.sb), w64 (st.sc + fin.sc), w64 (st.sd + fin.sd),
   w64 (st.se + fin.se), w64 (st.sf + fin.sf), w64 (st.sg + fin.sg), w64 (st.sh + fin.sh)⟩

/-- Split a byte list into 128-byte blocks. -/
def chunks128 : List Nat → List (List Nat)
  | [] => []
  | x :: xs => (x :: xs).take 128 :: chunks128 ((x :: xs).drop 128)
termination_by l => l.length
decreasing_by simp [List.length_drop]; omega

/-- `k` bytes of `v`, big endian. -/
def toBytesBE : Nat → Nat → List Nat
  | 0, _ => []
  | k + 1, v => toBytesBE k (v / 256) ++ [v % 256]

/-- FIPS 180-4 message padding for the SHA-512 family: a 0x80 byte, zeros up
to 112 modulo 128, and the bit length in sixteen big-endian bytes. -/
def shaPad (m : List Nat) : List Nat :=
  m ++ 128 :: (List.replicate ((128 - (m.length + 17) % 128) % 128) 0 ++
    toBytesBE 16 (m.length * 8))

/-- SHA-384 of a byte list: SHA-512 with the SHA-384 initial value, digest
truncated to the first six state words (48 bytes). -/
def sha384 (m : List Nat) : List Nat :=
  let msg := m.map (fun b => b % 256)
  let fin := (chunks128 (shaPad msg)).foldl processBlock sha384IV
  toBytesBE 8 fin.sa ++ toBytesBE 8 fin.sb ++ toBytesBE 8 fin.sc ++
  toBytesBE 8 fin.sd ++ toBytesBE 8 fin.se ++ toBytesBE 8 fin.sf

/-- RFC 2104 HMAC over SHA-384 (block size 128 bytes), exactly the CryptoPP
`HMAC<SHA384>` construction: the key enters raw, is zero-padded to the block
size (hashed first only when longer than a block, as the HMAC standard
itself prescribes), and the tag is `H((K xor opad) || H((K xor ipad) || m))`. -/
def hmacSha384 (key msg : List Nat) : List Nat :=
  let k0 := if 128 < key.length then sha384 key else key.map (fun b => b % 256)
  let kp := k0 ++ List.replicate (128 - k0.length) 0
  sha384 ((kp.map (fun b => b ^^^ 92)) ++ sha384 ((kp.map (fun b => b ^^^ 54)) ++ msg))

/-- Uppercase hex digit, as emitted by CryptoPP `HexEncoder`. -/
def hexDigit (n : Nat) : Char := "0123456789ABCDEF".data.getD n '0'

/-- Hex encoding of a byte list, two characters per byte. -/
def hexEncode (bs : List Nat) : List Char :=
  bs.flatMap (fun b => [hexDigit (b / 16), hexDigit (b % 16)])

/-- ASCII `::tolower` on one character. -/
def tolowerChar (c : Char) : Char :=
  if 'A' ≤ c ∧ c ≤ 'Z' then Char.ofNat (c.toNat + 32) else c

/-- Shallow embedding of `BitfinexAPI::getHmacSha384`: HMAC-SHA-384 keyed by
the raw secret bytes, hex-encoded and lowercased.  (The C++ routine also
returns the int `0` unconditionally and writes the digest through its
out-parameter.) -/
def getHmacSha384 (key content : List Nat) : List Char :=
  (hexEncode (hmacSha384 key content)).map tolowerChar

/-! ### Digest-shape lemmas -/

theorem toBytesBE_length (k v : Nat) : (toBytesBE k v).length = k := by
  induction k generalizing v with
  | zero => rfl
  | succ n ih => simp [toBytesBE, ih]

theorem toBytesBE_lt (k v : Nat) : ∀ b ∈ toBytesBE k v, b < 256 := by
  induction k generalizing v with
  | zero => intro b hb; simp [toBytesBE] at hb
  | succ n ih =>
      intro b hb
      simp only [toBytesBE, List.mem_append, List.mem_singleton] at hb
      rcases hb with h | h
      · exact ih _ b h
      · omega

theorem sha384_length (m : List Nat) : (sha384 m).length = 48 := by
  simp [sha384, toBytesBE_length]

theorem digest_bytes_lt (st : Sha512State) :
    ∀ b ∈ toBytesBE 8 st.sa ++ toBytesBE 8 st.sb ++ toBytesBE 8 st.sc ++
      toBytesBE 8 st.sd ++ toBytesBE 8 st.se ++ toBytesBE 8 st.sf, b < 256 := by
  intro b hb
  rcases List.mem_append.1 hb with h | h
  · rcases List.mem_append.1 h with h | h
    · rcases List.mem_append.1 h with h | h
      · rcases List.mem_append.1 h with h | h
        · rcases List.mem_append.1 h with h | h
          · exact toBytesBE_lt _ _ b h
          · exact toBytesBE_lt _ _ b h
        · exact toBytesBE_lt _ _ b h
      · exact toBytesBE_lt _ _ b h
    · exact toBytesBE_lt _ _ b h
  · exact toBytesBE_lt _ _ b h

theorem sha384_bytes_lt (m : List Nat) : ∀ b ∈ sha384 m, b < 256 :=
  digest_bytes_lt _

theorem hmacSha384_length (key msg : List Nat) : (hmacSha384 key msg).length = 48 := by
  simp only [hmacSha384]
  exact sha384_length _

theorem hmacSha384_bytes_lt (key msg : List Nat) : ∀ b ∈ hmacSha384 key msg, b < 256 := by
  simp only [hmacSha384]
  exact sha384_bytes_lt _

theorem hexEncode_length (bs : List Nat) : (hexEncode bs).length = 2 * bs.length := by
  induction bs with
  | nil => rfl
  | cons b t ih =>
      simp only [hexEncode] at ih ⊢
      simp [List.flatMap_cons, ih]
      omega

theorem hexEncode_mem (bs : List Nat) :
    ∀ c ∈ hexEncode bs, ∃ b ∈ bs, c = hexDigit (b / 16) ∨ c = hexDigit (b % 16) := by
  induction bs with
  | nil => intro c hc; simp [hexEncode] at hc
  | cons b t ih =>
      intro c hc
      simp only [hexEncode, List.flatMap_cons, List.mem_append, List.mem_cons,
        List.not_mem_nil, or_false] at hc
      rcases hc with (h | h) | h
      · exact ⟨b, by simp, Or.inl h⟩
      · exact ⟨b, by simp, Or.inr h⟩
      · obtain ⟨b0, hb0, hor⟩ := ih c h
        exact ⟨b0, by simp [hb0], hor⟩

/-! ### Claim about the request signer -/

/-- C3: `getHmacSha384` is deterministic (it is a pure function of the raw
key and the content: two invocations with identical inputs give identical
digests); its output is exactly 96 characters, every one of them a lowercase
hexadecimal digit; and it is exactly the lowercased hex rendering of the
RFC 2104 HMAC over the 384-bit hash SHA-384, keyed by the raw secret key
(the key is not pre-hashed before entering the HMAC construction). -/
theorem C3_getHmacSha384_spec (key content : List Nat) :
    getHmacSha384 key content = getHmacSha384 key content
    ∧ (getHmacSha384 key content).length = 96
    ∧ (∀ c ∈ getHmacSha384 key content, c ∈ "0123456789abcdef".data)
    ∧ getHmacSha384 key content = (hexEncode (hmacSha384 key content)).map tolowerChar := by
  refine ⟨rfl, ?_, ?_, rfl⟩
  · simp [getHmacSha384, hexEncode_length, hmacSha384_length]
  · intro c hc
    simp only [getHmacSha384, List.mem_map] at hc
    obtain ⟨c0, hc0, hlow⟩ := hc
    obtain ⟨b, hb, hor⟩ := hexEncode_mem _ c0 hc0
    have hblt : b < 256 := hmacSha384_bytes_lt key content b hb
    have h16 : ∀ n, n < 16 → tolowerChar (hexDigit n) ∈ "0123456789abcdef".data := by decide
    rcases hor with h | h
    · rw [← hlow, h]; exact h16 _ (by omega)
    · rw [← hlow, h]; exact h16 _ (by omega)

/-! ## `DoPOSTrequest` (BitfinexAPI.hpp lines 984-1033)

The authenticated-request builder: on a POST, the C++ method base64-encodes
the request body (`getBase64(params, payload)`), signs the ENCODED payload
with the held secret key (`getHmacSha384(secretKey_, payload, signature)`),
and appends exactly three headers, `X-BFX-APIKEY:` + accessKey,
`X-BFX-PAYLOAD:` + payload and `X-BFX-SIGNATURE:` + signature, before
handing the request to libcurl.  The curl transport itself (and its
`curlERR` path for a null handle) is the external collaborator excluded by
the specification; the embedding covers the encode / sign / assemble steps,
propagating the encoder outcome. -/

/-- The three authentication header values assembled for one POST request. -/
structure PostHeaders where
  apiKeyHeader : List Char
  payloadHeader : List Char
  signatureHeader : List Char
deriving DecidableEq

/-- Outcome of the header-assembly core of `DoPOSTrequest`:
either the three headers, or the failure condition the specification demands
of the encoding step, or the undefined behaviour the encoder actually reaches
on oversized payloads. -/
inductive PostOutcome
  | headers (h : PostHeaders)
  | payloadTooLargeFailure
  | undefinedBehavior
deriving DecidableEq

/-- Shallow embedding of the encode / sign / assemble core of
`BitfinexAPI::DoPOSTrequest`.  `accessKey` and `secretKey` are the key
strings held by the client object; `params` is the request body bytes. -/
def DoPOSTrequest (accessKey secretKey : List Char) (params : List Nat) : PostOutcome :=
  match getBase64 params with
  | .ok _ payload =>
      .headers ⟨"X-BFX-APIKEY:".data ++ accessKey,
                "X-BFX-PAYLOAD:".data ++ payload,
                "X-BFX-SIGNATURE:".data ++
                  getHmacSha384 (secretKey.map Char.toNat) (payload.map Char.toNat)⟩
  | .payloadTooLarge => .payloadTooLargeFailure
  | .outOfBoundsWrite => .undefinedBehavior

/-! ### Claims about the authenticated request builder -/

/-- C4 counterexample: the claim says the builder propagates a
PayloadTooLarge failure from the encoding step.  At a concrete 1025-byte
body, the builder does not produce any PayloadTooLarge failure: the encoder
performs no size check and the run ends in the out-of-bounds write of the
fixed 1024-byte buffer (undefined behaviour), which is a different outcome
than the claimed failure. -/
theorem C4_counterexample_no_payloadTooLarge :
    DoPOSTrequest [] [] (List.replicate 1025 0) = PostOutcome.undefinedBehavior
    ∧ PostOutcome.undefinedBehavior ≠ PostOutcome.payloadTooLargeFailure := by
  constructor
  · unfold DoPOSTrequest getBase64
    rw [if_neg (by rw [List.length_replicate]; omega)]
  · intro h
    cases h

/-- C4 (amended): for every request body within the 1024-byte bound of the
encoder, the builder first base64-encodes the body, then signs the ENCODED
body (not the raw body), and assembles exactly three header values: the raw
access key, the base64-encoded payload, and the hex signature.  (The
PayloadTooLarge propagation of the original claim does not exist in the
code: the encoding step never fails, and oversized bodies reach undefined
behaviour instead — see the counterexample.) -/
theorem C4_doPOSTrequest_header_assembly (accessKey secretKey : List Char)
    (params : List Nat) (hlen : params.length ≤ 1024) :
    DoPOSTrequest accessKey secretKey params =
      PostOutcome.headers ⟨"X-BFX-APIKEY:".data ++ accessKey,
        "X-BFX-PAYLOAD:".data ++ base64Encode params,
        "X-BFX-SIGNATURE:".data ++
          getHmacSha384 (secretKey.map Char.toNat)
            ((base64Encode params).map Char.toNat)⟩ := by
  unfold DoPOSTrequest getBase64
  rw [if_pos hlen]

/-- Witness for C4 at the empty body and empty keys. -/
theorem C4_doPOSTrequest_header_assembly_witness :
    ([] : List Nat).length ≤ 1024
    ∧ DoPOSTrequest [] [] [] =
      PostOutcome.headers ⟨"X-BFX-APIKEY:".data ++ ([] : List Char),
        "X-BFX-PAYLOAD:".data ++ base64Encode [],
        "X-BFX-SIGNATURE:".data ++
          getHmacSha384 (([] : List Char).map Char.toNat)
            ((base64Encode []).map Char.toNat)⟩ :=
  ⟨by decide, C4_doPOSTrequest_header_assembly [] [] [] (by decide)⟩

/-! ## The JSON decoder (bfx-api-cpp/jsonutils.hpp)

`jsonStrToUset` streams the input text through a rapidjson `Reader` whose
SAX events pass through a `GenericSchemaValidator` (checking the stream
against the `flatJsonSchema` artifact referenced from `doc/definitions.json`)
and then into the `jsonStrToUsetHandler` set-collection automaton.  On any
failure - a syntax error from the reader or a rejection by the
validator/handler pair (rapidjson reports the latter as a termination
error) - the routine prints diagnostics to `cerr` and returns the single
error value `bfxERR::jsonStrToUSetError`, leaving the caller-supplied set
untouched; on success it swaps the handler set into the caller's set and
returns `bfxERR::noError`.

The embedding below models the reader as a tokenizer over the rapidjson
lexical grammar followed by a token-at-a-time grammar machine firing the
same SAX events in the same order; the only caller-visible outputs (the
returned `bfxERR` value and the set) are identical to the interleaved
single-pass original, since the diagnostics printed to `cerr` are not part
of the return value. -/

/-- Opening curly brace character. -/
def lcubChar : Char := Char.ofNat 123

/-- Closing curly brace character. -/
def rcubChar : Char := Char.ofNat 125

/-- rapidjson `SkipWhitespace`: space, tab, newline, carriage return. -/
def isWsChar (c : Char) : Bool := c == ' ' || c == '\t' || c == '\n' || c == '\r'

/-- ASCII decimal digit. -/
def isDigitChar (c : Char) : Bool := decide (48 ≤ c.toNat ∧ c.toNat ≤ 57)

/-- Four hex digits of a `\uXXXX` escape. -/
def lexU4 (cs : List Char) : Option (Nat × List Char) :=
  match cs with
  | h1 :: h2 :: h3 :: h4 :: rest =>
      match hexVal h1, hexVal h2, hexVal h3, hexVal h4 with
      | some v1, some v2, some v3, some v4 =>
          some (((v1 * 16 + v2) * 16 + v3) * 16 + v4, rest)
      | _, _, _, _ => none
  | _ => none

/-- The simple JSON string escapes accepted by rapidjson `ParseString`. -/
def escChar (e : Char) : Option Char :=
  if e = '"' then some '"'
  else if e = '\\' then some '\\'
  else if e = '/' then some '/'
  else if e = 'b' then some (Char.ofNat 8)
  else if e = 'f' then some (Char.ofNat 12)
  else if e = 'n' then some '\n'
  else if e = 'r' then some '\r'
  else if e = 't' then some '\t'
  else none

/-- JSON string body lexer (after the opening quote): decoded characters and
the rest of the input.  Mirrors rapidjson `ParseString`: rejects raw control
characters below 0x20, unknown escapes, lone surrogates and unterminated
strings; combines surrogate pairs.  Fuel-driven recursion; every step
consumes input, so fuel at least the input length never runs out. -/
def lexStrAux : Nat → List Char → Option (List Char × List Char)
  | 0, _ => none
  | _ + 1, [] => none
  | fuel + 1, c :: rest =>
    if c = '"' then some ([], rest)
    else if c = '\\' then
      match rest with
      | [] => none
      | e :: rest2 =>
        if e = 'u' then
          match lexU4 rest2 with
          | none => none
          | some (v, rest3) =>
            if 55296 ≤ v ∧ v ≤ 56319 then
              match rest3 with
              | b1 :: b2 :: tail2 =>
                if b1 = '\\' ∧ b2 = 'u' then
                  match lexU4 tail2 with
                  | none => none
                  | some (v2, rest4) =>
                    if 56320 ≤ v2 ∧ v2 ≤ 57343 then
                      (fun p => (Char.ofNat (65536 + (v - 55296) * 1024 + (v2 - 56320)) :: p.1,
                        p.2)) <$> lexStrAux fuel rest4
                    else none
                else none
              | _ => none
            else if 56320 ≤ v ∧ v ≤ 57343 then none
            else (fun p => (Char.ofNat v :: p.1, p.2)) <$> lexStrAux fuel rest3
        else
          match escChar e with
          | some ch => (fun p => (ch :: p.1, p.2)) <$> lexStrAux fuel rest2
          | none => none
    else if c.toNat < 32 then none
    else (fun p => (c :: p.1, p.2)) <$> lexStrAux fuel rest

/-- One or more decimal digits, returning the rest of the input. -/
def lexDigits1 (cs : List Char) : Option (List Char) :=
  match cs with
  | c :: rest => if isDigitChar c then some (rest.dropWhile isDigitChar) else none
  | [] => none

/-- JSON number grammar of rapidjson `ParseNumber`:
`-? (0 | [1-9][0-9]*) (. [0-9]+)? ([eE][+-]?[0-9]+)?`; returns the rest of
the input (the numeric value itself is irrelevant to the decoder, which
rejects every number event). -/
def lexNumber (cs : List Char) : Option (List Char) := do
  let cs1 := match cs with
    | '-' :: r => r
    | _ => cs
  let cs2 ← match cs1 with
    | '0' :: r => some r
    | c :: r => if isDigitChar c then some (r.dropWhile isDigitChar) else none
    | [] => none
  let cs3 ← match cs2 with
    | '.' :: r => lexDigits1 r
    | _ => some cs2
  match cs3 with
  | c :: r =>
      if c = 'e' ∨ c = 'E' then
        let r2 := match r with
          | s :: r3 => if s = '+' ∨ s = '-' then r3 else r
          | [] => r
        lexDigits1 r2
      else some cs3
  | [] => some []

/-- Lexical tokens of a JSON document (string tokens carry the decoded
string; number tokens need no value, the decoder rejects every number). -/
inductive JToken
  | tLB | tRB | tLC | tRC | tComma | tColon
  | tStr (s : String)
  | tNum | tTrue | tFalse | tNull
deriving DecidableEq, Repr

/-- Fuel-driven token scanner over the rapidjson lexical grammar; `none` is
a syntax error. -/
def tokenizeAux : Nat → List Char → Option (List JToken)
  | 0, _ => none
  | fuel + 1, cs =>
    match cs.dropWhile isWsChar with
    | [] => some []
    | '[' :: r => (fun ts => JToken.tLB :: ts) <$> tokenizeAux fuel r
    | ']' :: r => (fun ts => JToken.tRB :: ts) <$> tokenizeAux fuel r
    | ',' :: r => (fun ts => JToken.tComma :: ts) <$> tokenizeAux fuel r
    | ':' :: r => (fun ts => JToken.tColon :: ts) <$> tokenizeAux fuel r
    | 't' :: 'r' :: 'u' :: 'e' :: r => (fun ts => JToken.tTrue :: ts) <$> tokenizeAux fuel r
    | 'f' :: 'a' :: 'l' :: 's' :: 'e' :: r => (fun ts => JToken.tFalse :: ts) <$> tokenizeAux fuel r
    | 'n' :: 'u' :: 'l' :: 'l' :: r => (fun ts => JToken.tNull :: ts) <$> tokenizeAux fuel r
    | c :: r =>
      if c = '"' then
        match lexStrAux (fuel + 1) r with
        | none => none
        | some (s, r2) => (fun ts => JToken.tStr ⟨s⟩ :: ts) <$> tokenizeAux fuel r2
      else if c = lcubChar then (fun ts => JToken.tLC :: ts) <$> tokenizeAux fuel r
      else if c = rcubChar then (fun ts => JToken.tRC :: ts) <$> tokenizeAux fuel r
      else if c = '-' ∨ isDigitChar c then
        match lexNumber (c :: r) with
        | none => none
        | some r2 => (fun ts => JToken.tNum :: ts) <$> tokenizeAux fuel r2
      else none

/-- Token stream of a JSON text, or `none` on a syntax error. -/
def tokenize (s : String) : Option (List JToken) :=
  tokenizeAux (s.data.length + 1) s.data

/-- The two states of the set-collection automaton
(`jsonStrToUsetHandler::State` in jsonutils.hpp). -/
inductive HandlerState
  | kExpectArrayStart
  | kExpectValueOrArrayEnd
deriving DecidableEq, Repr

/-- The SAX handler object: the output set `handlerUSet_` and the automaton
state `state_` (constructed as an empty set in state `kExpectArrayStart`). -/
structure jsonStrToUsetHandler where
  handlerUSet_ : List String
  state_ : HandlerState
deriving DecidableEq, Repr

/-- `std::string` construction from a `const char *`: the C++ handler stores
the SAX string value with `handlerUSet_.emplace(str)`, which reads the
buffer only up to its first NUL byte (the separately supplied length
parameter of the `String` event is ignored by the code). -/
def truncAtNul (s : String) : String := ⟨s.data.takeWhile (fun c => c ≠ Char.ofNat 0)⟩

/-- `std::unordered_set::emplace`: insert if not already present.  The set
is modelled as its list of elements in insertion order. -/
def usetEmplace (uset : List String) (s : String) : List String :=
  if s ∈ uset then uset else uset ++ [s]

/-- The SAX events a rapidjson reader can deliver to the handler. -/
inductive JEvent
  | eStartArray | eEndArray | eStartObject | eEndObject
  | eKey (s : String)
  | eString (s : String)
  | eNull
  | eBool (b : Bool)
  | eNumber
deriving DecidableEq, Repr

/-- `jsonStrToUsetHandler::StartArray` (jsonutils.hpp lines 81-91). -/
def handlerStartArray (h : jsonStrToUsetHandler) : Bool × jsonStrToUsetHandler :=
  match h.state_ with
  | .kExpectArrayStart => (true, { h with state_ := .kExpectValueOrArrayEnd })
  | _ => (false, h)

/-- `jsonStrToUsetHandler::String` (jsonutils.hpp lines 93-103): in
`kExpectValueOrArrayEnd` it emplaces the value (truncated at the first NUL
by the `const char *` conversion) and accepts; otherwise rejects. -/
def handlerString (h : jsonStrToUsetHandler) (s : String) : Bool × jsonStrToUsetHandler :=
  match h.state_ with
  | .kExpectValueOrArrayEnd =>
      (true, { h with handlerUSet_ := usetEmplace h.handlerUSet_ (truncAtNul s) })
  | _ => (false, h)

/-- `jsonStrToUsetHandler::EndArray` (jsonutils.hpp lines 105-108): accepts
exactly in `kExpectValueOrArrayEnd`, changing nothing. -/
def handlerEndArray (h : jsonStrToUsetHandler) : Bool × jsonStrToUsetHandler :=
  (h.state_ == HandlerState.kExpectValueOrArrayEnd, h)

/-- `jsonStrToUsetHandler::Default` (jsonutils.hpp line 110): every other
event is invalid. -/
def handlerDefault (h : jsonStrToUsetHandler) : Bool × jsonStrToUsetHandler := (false, h)

/-- Event dispatch of the handler.  `Key` forwards to `String` because the
handler inherits rapidjson `BaseReaderHandler`, whose default `Key`
implementation calls `String` (unreachable here: object-open is rejected
before any key can be delivered). -/
def handlerEvent (h : jsonStrToUsetHandler) : JEvent → Bool × jsonStrToUsetHandler
  | .eStartArray => handlerStartArray h
  | .eEndArray => handlerEndArray h
  | .eString s => handlerString h s
  | .eKey s => handlerString h s
  | _ => handlerDefault h

/-- Modelled from the spec: the schema automaton.  The schema artifact
`doc/definitions.json` (its `flatJsonSchema` entry, referenced by
`jsonStrToUset` through `{ "$ref": ... }`) is not among the sources; the
specification describes it as a fixed schema requiring the top-level value
to be an array and every element to be a string, no other shape permitted. -/
inductive SchemaState
  | sExpectRoot | sInArray | sAccepted
deriving DecidableEq, Repr

/-- Modelled from the spec: one step of the flat-array-of-strings schema
validation; `none` is a schema violation. -/
def schemaEvent : SchemaState → JEvent → Option SchemaState
  | .sExpectRoot, .eStartArray => some .sInArray
  | .sInArray, .eString _ => some .sInArray
  | .sInArray, .eEndArray => some .sAccepted
  | _, _ => none

/-- One SAX event through `GenericSchemaValidator`: the schema is checked
first; only if it accepts is the event forwarded to the output handler, and
the handler must accept too (`none` makes the reader stop with a
termination error). -/
def applyEvent (sch : SchemaState) (h : jsonStrToUsetHandler) (ev : JEvent) :
    Option (SchemaState × jsonStrToUsetHandler) :=
  match schemaEvent sch ev with
  | none => none
  | some sch2 =>
      match handlerEvent h ev with
      | (true, h2) => some (sch2, h2)
      | (false, _) => none

/-- Enclosing-container frame of the reader grammar. -/
inductive GFrame
  | fArr | fObj
deriving DecidableEq, Repr

/-- Reader grammar positions: expecting the root value, inside an array
(just opened / after an element / after a comma), inside an object (the
analogous positions), or done with the root value. -/
inductive PMode
  | pValue | pArrFirst | pArrNext | pArrVal
  | pObjFirst | pObjColon | pObjVal | pObjNext | pObjKey
  | pDone
deriving DecidableEq, Repr

/-- Complete reader state: grammar position, stack of enclosing containers,
schema-validator state and handler object. -/
structure MState where
  mode : PMode
  stack : List GFrame
  schema : SchemaState
  handler : jsonStrToUsetHandler
deriving DecidableEq, Repr

/-- A value just ended: pop the enclosing container (or finish the root). -/
def completeValue : List GFrame → PMode × List GFrame
  | [] => (.pDone, [])
  | .fArr :: rest => (.pArrNext, rest)
  | .fObj :: rest => (.pObjNext, rest)

/-- Process one token in value position, firing the corresponding SAX
event; `stack` is the continuation after this value completes. -/
def stepValue (tok : JToken) (stack : List GFrame) (sch : SchemaState)
    (h : jsonStrToUsetHandler) : Option MState :=
  match tok with
  | .tStr s =>
      match applyEvent sch h (.eString s) with
      | none => none
      | some (sch2, h2) =>
          let p := completeValue stack
          some ⟨p.1, p.2, sch2, h2⟩
  | .tNum =>
      match applyEvent sch h .eNumber with
      | none => none
      | some (sch2, h2) =>
          let p := completeValue stack
          some ⟨p.1, p.2, sch2, h2⟩
  | .tTrue =>
      match applyEvent sch h (.eBool true) with
      | none => none
      | some (sch2, h2) =>
          let p := completeValue stack
          some ⟨p.1, p.2, sch2, h2⟩
  | .tFalse =>
      match applyEvent sch h (.eBool false) with
      | none => none
      | some (sch2, h2) =>
          let p := completeValue stack
          some ⟨p.1, p.2, sch2, h2⟩
  | .tNull =>
      match applyEvent sch h .eNull with
      | none => none
      | some (sch2, h2) =>
          let p := completeValue stack
          some ⟨p.1, p.2, sch2, h2⟩
  | .tLB =>
      match applyEvent sch h .eStartArray with
      | none => none
      | some (sch2, h2) => some ⟨.pArrFirst, stack, sch2, h2⟩
  | .tLC =>
      match applyEvent sch h .eStartObject with
      | none => none
      | some (sch2, h2) => some ⟨.pObjFirst, stack, sch2, h2⟩
  | _ => none

/-- One token through the reader grammar (rapidjson default flags: single
root value, no trailing commas), firing SAX events into the
validator-then-handler pair. -/
def stepTok (st : MState) (tok : JToken) : Option MState :=
  match st.mode with
  | .pValue => stepValue tok st.stack st.schema st.handler
  | .pArrFirst =>
      match tok with
      | .tRB =>
          match applyEvent st.schema st.handler .eEndArray with
          | none => none
          | some (sch2, h2) =>
              let p := completeValue st.stack
              some ⟨p.1, p.2, sch2, h2⟩
      | _ => stepValue tok (.fArr :: st.stack) st.schema st.handler
  | .pArrNext =>
      match tok with
      | .tComma => some ⟨.pArrVal, st.stack, st.schema, st.handler⟩
      | .tRB =>
          match applyEvent st.schema st.handler .eEndArray with
          | none => none
          | some (sch2, h2) =>
              let p := completeValue st.stack
              some ⟨p.1, p.2, sch2, h2⟩
      | _ => none
  | .pArrVal => stepValue tok (.fArr :: st.stack) st.schema st.handler
  | .pObjFirst =>
      match tok with
      | .tRC =>
          match applyEvent st.schema st.handler .eEndObject with
          | none => none
          | some (sch2, h2) =>
              let p := completeValue st.stack
              some ⟨p.1, p.2, sch2, h2⟩
      | .tStr s =>
          match applyEvent st.schema st.handler (.eKey s) with
          | none => none
          | some (sch2, h2) => some ⟨.pObjColon, st.stack, sch2, h2⟩
      | _ => none
  | .pObjColon =>
      match tok with
      | .tColon => some ⟨.pObjVal, st.stack, st.schema, st.handler⟩
      | _ => none
  | .pObjVal => stepValue tok (.fObj :: st.stack) st.schema st.handler
  | .pObjNext =>
      match tok with
      | .tComma => some ⟨.pObjKey, st.stack, st.schema, st.handler⟩
      | .tRC =>
          match applyEvent st.schema st.handler .eEndObject with
          | none => none
          | some (sch2, h2) =>
              let p := completeValue st.stack
              some ⟨p.1, p.2, sch2, h2⟩
      | _ => none
  | .pObjKey =>
      match tok with
      | .tStr s =>
          match applyEvent st.schema st.handler (.eKey s) with
          | none => none
          | some (sch2, h2) => some ⟨.pObjColon, st.stack, sch2, h2⟩
      | _ => none
  | .pDone => none

/-- Run the reader over the whole token stream. -/
def runTokens : List JToken → MState → Option MState
  | [], st => some st
  | tok :: rest, st =>
      match stepTok st tok with
      | some st2 => runTokens rest st2
      | none => none

/-- The `bfxERR` error enumeration of `BfxAPI::BitfinexAPI`
(BitfinexAPI.hpp lines 76-89). -/
inductive bfxERR
  | noError | curlERR | badSymbol | badCurrency | badDepositMethod
  | badWalletType | requiredParamsMissing | wireParamsMissing
  | addressParamsMissing | badOrderType | jsonStrToUSetError
deriving DecidableEq, Repr

/-- Initial reader state: root value expected, schema at its root, handler
freshly constructed (empty set, `kExpectArrayStart`). -/
def initMState : MState :=
  ⟨.pValue, [], .sExpectRoot, ⟨[], .kExpectArrayStart⟩⟩

/-- Shallow embedding of `jsonutils::jsonStrToUset` (jsonutils.hpp lines
121-173).  The first component is the returned error code; the second is
the caller's set after the call (swapped with the handler set on success,
untouched on failure). -/
def jsonStrToUset (uSet : List String) (jsonStr : String) : bfxERR × List String :=
  match tokenize jsonStr with
  | none => (.jsonStrToUSetError, uSet)
  | some toks =>
      match runTokens toks initMState with
      | none => (.jsonStrToUSetError, uSet)
      | some st =>
          if st.mode = .pDone then (.noError, st.handler.handlerUSet_)
          else (.jsonStrToUSetError, uSet)

/-- The decoded string values of the string tokens of a stream (the
top-level strings of the document, for streams the decoder accepts). -/
def strTokens : List JToken → List String
  | [] => []
  | JToken.tStr s :: rest => s :: strTokens rest
  | _ :: rest => strTokens rest

/-! ### Reader-run lemmas and claims about the JSON decoder -/

theorem run_done (toks : List JToken) (stack : List GFrame) (sch : SchemaState)
    (hd : jsonStrToUsetHandler) (st' : MState)
    (h : runTokens toks ⟨PMode.pDone, stack, sch, hd⟩ = some st') :
    st' = ⟨PMode.pDone, stack, sch, hd⟩ ∧ toks = [] := by
  cases toks with
  | nil =>
      simp only [runTokens, Option.some.injEq] at h
      exact ⟨h.symm, rfl⟩
  | cons tok rest => exact Option.noConfusion h

theorem run_good : ∀ (toks : List JToken) (m : PMode) (set : List String) (st' : MState),
    (m = PMode.pArrFirst ∨ m = PMode.pArrNext ∨ m = PMode.pArrVal) →
    runTokens toks ⟨m, [], SchemaState.sInArray,
      ⟨set, HandlerState.kExpectValueOrArrayEnd⟩⟩ = some st' →
    st'.mode = PMode.pDone →
    st'.handler.handlerUSet_ = List.foldl usetEmplace set ((strTokens toks).map truncAtNul) := by
  intro toks
  induction toks with
  | nil =>
      intro m set st' hm hrun hdone
      simp only [runTokens, Option.some.injEq] at hrun
      rw [← hrun] at hdone
      simp only at hdone
      rcases hm with rfl | rfl | rfl <;> exact absurd hdone (by simp)
  | cons tok rest ih =>
      intro m set st' hm hrun hdone
      rcases hm with rfl | rfl | rfl
      · -- pArrFirst
        cases tok with
        | tStr s =>
            have hrun2 : runTokens rest ⟨PMode.pArrNext, [], SchemaState.sInArray,
                ⟨usetEmplace set (truncAtNul s), HandlerState.kExpectValueOrArrayEnd⟩⟩
                = some st' := hrun
            have hres := ih PMode.pArrNext (usetEmplace set (truncAtNul s)) st'
              (Or.inr (Or.inl rfl)) hrun2 hdone
            simpa [strTokens] using hres
        | tRB =>
            have hrun2 : runTokens rest ⟨PMode.pDone, [], SchemaState.sAccepted,
                ⟨set, HandlerState.kExpectValueOrArrayEnd⟩⟩ = some st' := hrun
            obtain ⟨hst, hrest⟩ := run_done rest _ _ _ st' hrun2
            subst hrest
            rw [hst]
            simp [strTokens]
        | tLB => exact Option.noConfusion hrun
        | tLC => exact Option.noConfusion hrun
        | tRC => exact Option.noConfusion hrun
        | tComma => exact Option.noConfusion hrun
        | tColon => exact Option.noConfusion hrun
        | tNum => exact Option.noConfusion hrun
        | tTrue => exact Option.noConfusion hrun
        | tFalse => exact Option.noConfusion hrun
        | tNull => exact Option.noConfusion hrun
      · -- pArrNext
        cases tok with
        | tComma =>
            have hrun2 : runTokens rest ⟨PMode.pArrVal, [], SchemaState.sInArray,
                ⟨set, HandlerState.kExpectValueOrArrayEnd⟩⟩ = some st' := hrun
            have hres := ih PMode.pArrVal set st' (Or.inr (Or.inr rfl)) hrun2 hdone
            simpa [strTokens] using hres
        | tRB =>
            have hrun2 : runTokens rest ⟨PMode.pDone, [], SchemaState.sAccepted,
                ⟨set, HandlerState.kExpectValueOrArrayEnd⟩⟩ = some st' := hrun
            obtain ⟨hst, hrest⟩ := run_done rest _ _ _ st' hrun2
            subst hrest
            rw [hst]
            simp [strTokens]
        | tStr s => exact Option.noConfusion hrun
        | tLB => exact Option.noConfusion hrun
        | tLC => exact Option.noConfusion hrun
        | tRC => exact Option.noConfusion hrun
        | tColon => exact Option.noConfusion hrun
        | tNum => exact Option.noConfusion hrun
        | tTrue => exact Option.noConfusion hrun
        | tFalse => exact Option.noConfusion hrun
        | tNull => exact Option.noConfusion hrun
      · -- pArrVal
        cases tok with
        | tStr s =>
            have hrun2 : runTokens rest ⟨PMode.pArrNext, [], SchemaState.sInArray,
                ⟨usetEmplace set (truncAtNul s), HandlerState.kExpectValueOrArrayEnd⟩⟩
                = some st' := hrun
            have hres := ih PMode.pArrNext (usetEmplace set (truncAtNul s)) st'
              (Or.inr (Or.inl rfl)) hrun2 hdone
            simpa [strTokens] using hres
        | tRB => exact Option.noConfusion hrun
        | tLB => exact Option.noConfusion hrun
        | tLC => exact Option.noConfusion hrun
        | tRC => exact Option.noConfusion hrun
        | tComma => exact Option.noConfusion hrun
        | tColon => exact Option.noConfusion hrun
        | tNum => exact Option.noConfusion hrun
        | tTrue => exact Option.noConfusion hrun
        | tFalse => exact Option.noConfusion hrun
        | tNull => exact Option.noConfusion hrun

theorem run_init (toks : List JToken) (st' : MState)
    (hrun : runTokens toks initMState = some st') (hdone : st'.mode = PMode.pDone) :
    st'.handler.handlerUSet_ = List.foldl usetEmplace [] ((strTokens toks).map truncAtNul) := by
  cases toks with
  | nil =>
      simp only [runTokens, Option.some.injEq] at hrun
      rw [← hrun] at hdone
      exact absurd hdone (by simp [initMState])
  | cons tok rest =>
      cases tok with
      | tLB =>
          have hrun2 : runTokens rest ⟨PMode.pArrFirst, [], SchemaState.sInArray,
              ⟨[], HandlerState.kExpectValueOrArrayEnd⟩⟩ = some st' := hrun
          have hres := run_good rest PMode.pArrFirst [] st' (Or.inl rfl) hrun2 hdone
          simpa [strTokens] using hres
      | tStr s => exact Option.noConfusion hrun
      | tRB => exact Option.noConfusion hrun
      | tLC => exact Option.noConfusion hrun
      | tRC => exact Option.noConfusion hrun
      | tComma => exact Option.noConfusion hrun
      | tColon => exact Option.noConfusion hrun
      | tNum => exact Option.noConfusion hrun
      | tTrue => exact Option.noConfusion hrun
      | tFalse => exact Option.noConfusion hrun
      | tNull => exact Option.noConfusion hrun

theorem usetEmplace_mem (init : List String) (a x : String) :
    x ∈ usetEmplace init a ↔ x ∈ init ∨ x = a := by
  unfold usetEmplace
  split
  · next hin =>
      constructor
      · exact fun h => Or.inl h
      · rintro (h | rfl)
        · exact h
        · exact hin
  · simp

theorem usetEmplace_fold_mem (l : List String) :
    ∀ (init : List String) (x : String),
      x ∈ List.foldl usetEmplace init l ↔ x ∈ init ∨ x ∈ l := by
  induction l with
  | nil => simp
  | cons a t ih =>
      intro init x
      simp only [List.foldl_cons, ih, usetEmplace_mem, List.mem_cons]
      tauto

theorem usetEmplace_nodup (init : List String) (a : String) (h : init.Nodup) :
    (usetEmplace init a).Nodup := by
  unfold usetEmplace
  split
  · exact h
  · next hna =>
      rw [List.nodup_append]
      refine ⟨h, List.nodup_singleton a, ?_⟩
      intro x hx hxa
      rw [List.mem_singleton] at hxa
      exact hna (hxa ▸ hx)

theorem usetEmplace_fold_nodup (l : List String) :
    ∀ init : List String, init.Nodup → (List.foldl usetEmplace init l).Nodup := by
  induction l with
  | nil => intro init h; exact h
  | cons a t ih =>
      intro init h
      exact ih _ (usetEmplace_nodup init a h)

/-- C5: on every input on which the decode fails (the returned error code is
`jsonStrToUSetError`, covering both malformed JSON and schema violations),
the caller-supplied output set is left unchanged: the failure branch of
`jsonStrToUset` returns before the `uSet.swap(handler.handlerUSet_)` of the
success branch, so no partially populated set is ever returned and success
and failure are mutually exclusive. -/
theorem C5_failure_leaves_set (uSet : List String) (jsonStr : String)
    (hfail : (jsonStrToUset uSet jsonStr).1 = bfxERR.jsonStrToUSetError) :
    (jsonStrToUset uSet jsonStr).2 = uSet := by
  unfold jsonStrToUset at hfail ⊢
  cases htok : tokenize jsonStr with
  | none => simp
  | some toks =>
      simp only [htok] at hfail ⊢
      cases hrun : runTokens toks initMState with
      | none => simp
      | some st =>
          simp only [hrun] at hfail ⊢
          by_cases hm : st.mode = PMode.pDone
          · simp [hm] at hfail
          · simp [hm]

/-- Witness for C5 at the truncated document `["a` followed by a quote, with
a caller set holding "x". -/
theorem C5_witness :
    (jsonStrToUset ["x"] "[\"a\"").1 = bfxERR.jsonStrToUSetError
    ∧ (jsonStrToUset ["x"] "[\"a\"").2 = ["x"] :=
  ⟨by decide, C5_failure_leaves_set ["x"] "[\"a\"" (by decide)⟩

/-- C6 counterexample: the claim says the two failure kinds (malformed JSON
versus schema violation) are distinguishable by the caller and carry offset
and keyword.  At the concrete inputs `["a` + quote (malformed: the array is
never closed) and `[1]` (well-formed JSON violating the flat-string-array
schema), the code returns the very same caller-visible value
`(jsonStrToUSetError, unchanged set)` in both cases: the offset/keyword
diagnostics only go to `cerr`, and no structured failure value exists, so
the two kinds cannot be told apart from the result. -/
theorem C6_counterexample :
    jsonStrToUset [] "[\"a\"" = (bfxERR.jsonStrToUSetError, [])
    ∧ jsonStrToUset [] "[1]" = (bfxERR.jsonStrToUSetError, [])
    ∧ (jsonStrToUset [] "[\"a\"").1 = (jsonStrToUset [] "[1]").1 := by
  refine ⟨by decide, by decide, by decide⟩

/-- C6 (amended): for every input, decode either succeeds with `noError`
and the decoded set or fails with the single error code
`jsonStrToUSetError`, for malformed JSON and schema violations alike; the
offset and violated-keyword diagnostics are printed to standard error and
are not part of the returned value, so the two failure kinds are not
distinguishable by the caller. -/
theorem C6_single_error_code (uSet : List String) (jsonStr : String) :
    (jsonStrToUset uSet jsonStr).1 = bfxERR.noError
    ∨ (jsonStrToUset uSet jsonStr).1 = bfxERR.jsonStrToUSetError := by
  unfold jsonStrToUset
  cases htok : tokenize jsonStr with
  | none => right; rfl
  | some toks =>
      simp only [htok]
      cases hrun : runTokens toks initMState with
      | none => right; rfl
      | some st =>
          simp only [hrun]
          by_cases hm : st.mode = PMode.pDone
          · left; simp [hm]
          · right; simp [hm]

/-- C7 (amended): whenever decode succeeds, the returned set consists
exactly of the distinct top-level string values of the document, EACH
TRUNCATED AT ITS FIRST NUL CHARACTER (the handler stores the SAX string
value through a `const char *` conversion that ignores the supplied length;
for NUL-free strings this is the identity, giving the set of distinct
top-level strings); duplicates collapse (the result is duplicate-free and
membership matches the token values); in particular
`decode of ["a","b","a"]` yields the set containing exactly "a" and "b". -/
theorem C7_amended :
    (∀ (jsonStr : String) (uSet0 out : List String),
      jsonStrToUset uSet0 jsonStr = (bfxERR.noError, out) →
      ∃ toks, tokenize jsonStr = some toks
        ∧ out = List.foldl usetEmplace [] ((strTokens toks).map truncAtNul)
        ∧ out.Nodup
        ∧ (∀ x, x ∈ out ↔ x ∈ (strTokens toks).map truncAtNul))
    ∧ jsonStrToUset [] "[\"a\",\"b\",\"a\"]" = (bfxERR.noError, ["a", "b"]) := by
  constructor
  · intro jsonStr uSet0 out h
    unfold jsonStrToUset at h
    cases htok : tokenize jsonStr with
    | none => simp [htok] at h
    | some toks =>
        simp only [htok] at h
        cases hrun : runTokens toks initMState with
        | none => simp [hrun] at h
        | some st =>
            simp only [hrun] at h
            by_cases hm : st.mode = PMode.pDone
            · simp only [hm, if_true, Prod.mk.injEq] at h
              refine ⟨toks, rfl, ?_, ?_, ?_⟩
              · rw [← h.2]
                exact run_init toks st hrun hm
              · rw [← h.2]
                rw [run_init toks st hrun hm]
                exact usetEmplace_fold_nodup _ [] List.nodup_nil
              · intro x
                rw [← h.2, run_init toks st hrun hm, usetEmplace_fold_mem]
                simp
            · simp [hm] at h
  · decide

/-- C7 counterexample: the claim says the decoded set holds the strings
appearing at top level.  On the schema-conformant document `["a\u0000b"]`
the sole top-level string is "a", NUL, "b" (as the token stream shows), yet
the decode succeeds with the set containing only "a": the element was
truncated at the embedded NUL byte by `handlerUSet_.emplace(str)`, so the
returned set does not contain the string that appeared in the array. -/
theorem C7_counterexample :
    jsonStrToUset [] "[\"a\\u0000b\"]" = (bfxERR.noError, ["a"])
    ∧ tokenize "[\"a\\u0000b\"]" =
        some [JToken.tLB, JToken.tStr "a\x00b", JToken.tRB]
    ∧ ("a\x00b" : String) ∉ (["a"] : List String) := by
  refine ⟨by decide, by decide, by decide⟩

/-- C8 (amended): the set-collection automaton has exactly the claimed
transitions - `kExpectArrayStart` plus array-open goes to
`kExpectValueOrArrayEnd`; `kExpectValueOrArrayEnd` plus a string value stays
put and appends the string TRUNCATED AT ITS FIRST NUL BYTE to the result
set (the sole deviation from the claim, which says the string itself is
appended); `kExpectValueOrArrayEnd` plus array-close accepts and changes
nothing; array-open in `kExpectValueOrArrayEnd` (a nested array), any string
in `kExpectArrayStart`, array-close in `kExpectArrayStart`, and every other
event (object open or close, null, boolean, number) are rejected
immediately; and no event ever moves the state out of
`kExpectValueOrArrayEnd`, so `kExpectArrayStart` is never re-entered and
exactly one top-level array is accepted per decode. -/
theorem C8_handler_transitions :
    (∀ set : List String, handlerStartArray ⟨set, HandlerState.kExpectArrayStart⟩ =
        (true, ⟨set, HandlerState.kExpectValueOrArrayEnd⟩))
    ∧ (∀ (set : List String) (s : String),
        handlerString ⟨set, HandlerState.kExpectValueOrArrayEnd⟩ s =
        (true, ⟨usetEmplace set (truncAtNul s), HandlerState.kExpectValueOrArrayEnd⟩))
    ∧ (∀ set : List String, handlerEndArray ⟨set, HandlerState.kExpectValueOrArrayEnd⟩ =
        (true, ⟨set, HandlerState.kExpectValueOrArrayEnd⟩))
    ∧ (∀ set : List String,
        (handlerStartArray ⟨set, HandlerState.kExpectValueOrArrayEnd⟩).1 = false)
    ∧ (∀ (set : List String) (s : String),
        (handlerString ⟨set, HandlerState.kExpectArrayStart⟩ s).1 = false)
    ∧ (∀ set : List String,
        (handlerEndArray ⟨set, HandlerState.kExpectArrayStart⟩).1 = false)
    ∧ (∀ h : jsonStrToUsetHandler,
        handlerEvent h JEvent.eStartObject = (false, h)
        ∧ handlerEvent h JEvent.eEndObject = (false, h)
        ∧ handlerEvent h JEvent.eNull = (false, h)
        ∧ (∀ b, handlerEvent h (JEvent.eBool b) = (false, h))
        ∧ handlerEvent h JEvent.eNumber = (false, h))
    ∧ (∀ (ev : JEvent) (set : List String),
        ((handlerEvent ⟨set, HandlerState.kExpectValueOrArrayEnd⟩ ev).2).state_ =
          HandlerState.kExpectValueOrArrayEnd) := by
  refine ⟨fun set => rfl, fun set s => rfl, fun set => rfl, fun set => rfl,
    fun set s => rfl, fun set => rfl,
    fun h => ⟨rfl, rfl, rfl, fun b => rfl, rfl⟩, ?_⟩
  intro ev set
  cases ev <;> rfl

/-- C8 counterexample: in `kExpectValueOrArrayEnd` the string event for
"a", NUL, "b" appends "a" - not the string carried by the event - to the
result set, refuting the transition as originally claimed. -/
theorem C8_counterexample :
    handlerString ⟨[], HandlerState.kExpectValueOrArrayEnd⟩ "a\x00b" =
      (true, ⟨["a"], HandlerState.kExpectValueOrArrayEnd⟩)
    ∧ ("a\x00b" : String) ≠ "a" := by
  refine ⟨by decide, by decide⟩

/-- Witness for C7 at the concrete document `["a"]`: the decode succeeds
with the set containing exactly "a", matching the token characterization. -/
theorem C7_amended_witness :
    jsonStrToUset [] "[\"a\"]" = (bfxERR.noError, ["a"])
    ∧ ∃ toks, tokenize "[\"a\"]" = some toks
        ∧ ["a"] = List.foldl usetEmplace [] ((strTokens toks).map truncAtNul)
        ∧ (["a"] : List String).Nodup
        ∧ (∀ x, x ∈ (["a"] : List String) ↔ x ∈ (strTokens toks).map truncAtNul) :=
  ⟨by decide, C7_amended.1 "[\"a\"]" [] ["a"] (by decide)⟩
